import Mathlib

/-!
Shallow embedding of the KB-Site feed-aggregation library
(src/lib/rss.ts, src/lib/books.ts) and proofs of the frozen claims.

Modelling conventions:
* JS strings are `List Char` (`Str`); UTF-16 surrogate pairs such as the
  headphone emoji are single code points here, which agrees with the JS
  substring operations used by the source.
* Machine-level divergences that no claim touches are noted at the
  definition site (lone-surrogate results of `String.fromCharCode`, and
  `Number` precision loss on ≥ 17-digit numeric entities).
* Network effects are modelled by explicit oracles: the feed fetch result,
  the sitemap fetch result, and a `pages` function giving the HTML of each URL
  (all `Except Unit _`, `.error` = the fetch threw).  `new Date(...)` values
  are modelled by an abstract `dateVal : Str → Int` oracle and
  `new Date().toISOString()` by a `now : Str` parameter.
* The JS regex calls are embedded by a small backtracking matcher over a
  pattern type `RE` (literal / single char-class / greedy char-class run),
  which covers exactly the regexes appearing in the source.
* `Array.prototype.sort` (required stable since ES2019) is embedded by
  `List.insertionSort`, which is stable; the comparators used by the source
  are total preorders for every `dateVal` oracle, so any stable sort gives
  the same list.
-/

set_option maxRecDepth 4000

namespace KB

abbrev Str := List Char

def quoteChar : Char := Char.ofNat 34

def aposChar : Char := Char.ofNat 39

/-- JS whitespace class `\s` (ASCII part; the source strings involved never
contain the additional Unicode space code points). -/
def wsp (c : Char) : Bool :=
  c = ' ' || c = '\t' || c = '\n' || c = '\r' || c = Char.ofNat 11 || c = Char.ofNat 12

/-- ASCII lower-casing, as performed by `toLowerCase` / the `/i` regex flag on
the ASCII patterns the source uses. -/
def lowerAscii (c : Char) : Char :=
  if 'A' ≤ c && c ≤ 'Z' then Char.ofNat (c.toNat + 32) else c

/-- Case-sensitive char comparison. -/
def ceqExact (a b : Char) : Bool := a == b

/-- Case-insensitive char comparison (regex `/i`). -/
def ceqCI (a b : Char) : Bool := lowerAscii a == lowerAscii b

/-- Does `pat` start the string `s`, comparing chars with `ceq`? -/
def litMatch (ceq : Char → Char → Bool) : Str → Str → Bool
  | [], _ => true
  | _ :: _, [] => false
  | p :: ps, c :: cs => ceq p c && litMatch ceq ps cs

/-- Length of the maximal front run of chars satisfying `p`. -/
def runLen (p : Char → Bool) : Str → Nat
  | [] => 0
  | c :: t => if p c then runLen p t + 1 else 0

/-- Elements of the regex subset used by the source: a literal, a single
char of a class, or a greedy class run (`one = true` for `+`, else `*`). -/
inductive RE where
  | lit (s : Str)
  | single (p : Char → Bool)
  | cls (p : Char → Bool) (one : Bool)

/-- Backtracking for a greedy class run: try consuming `k` chars (starting
from the maximal run) down to the minimum, taking the first length whose
continuation succeeds — exactly the JS backtracking order. -/
def clsTry (next : Str → Option (List Str × Str)) (s : Str) (lo : Nat) :
    Nat → Option (List Str × Str)
  | 0 =>
    if lo = 0 then (next s).map (fun r => (([] : Str) :: r.1, r.2)) else none
  | k + 1 =>
    if k + 1 < lo then none
    else
      match next (s.drop (k + 1)) with
      | some r => some (s.take (k + 1) :: r.1, r.2)
      | none => clsTry next s lo k

/-- One pattern element, continuation style. -/
def reStep (ceq : Char → Char → Bool) (re : RE)
    (next : Str → Option (List Str × Str)) : Str → Option (List Str × Str) :=
  fun s =>
    match re with
    | .lit l =>
      if litMatch ceq l s then
        (next (s.drop l.length)).map (fun r => (s.take l.length :: r.1, r.2))
      else none
    | .single p =>
      match s with
      | [] => none
      | c :: t => if p c then (next t).map (fun r => ([c] :: r.1, r.2)) else none
    | .cls p one => clsTry next s (if one then 1 else 0) (runLen p s)

/-- Match a whole pattern at the front of `s`; returns the chunk consumed by
each pattern element plus the remaining suffix. -/
def matchSeq (ceq : Char → Char → Bool) (ps : List RE) :
    Str → Option (List Str × Str) :=
  ps.foldr (reStep ceq) (fun s => some ([], s))

/-- Leftmost match: try the pattern at each position in turn
(JS `RegExp.prototype.exec` scanning). -/
def matchFirst (ceq : Char → Char → Bool) (ps : List RE) : Str → Option (List Str × Str)
  | [] => matchSeq ceq ps []
  | c :: t =>
    match matchSeq ceq ps (c :: t) with
    | some r => some r
    | none => matchFirst ceq ps t

/-- All non-overlapping leftmost matches (JS `matchAll` / `exec` loop with
`/g`).  The fuel starts at `length + 1`; every pattern the source uses begins
with a non-empty literal, so each match consumes at least one char and the
fuel is never exhausted. -/
def matchAllAux (ceq : Char → Char → Bool) (ps : List RE) :
    Nat → Str → List (List Str)
  | 0, _ => []
  | fuel + 1, s =>
    match matchFirst ceq ps s with
    | none => []
    | some (cs, r) => cs :: matchAllAux ceq ps fuel r

def matchAll (ceq : Char → Char → Bool) (ps : List RE) (s : Str) : List (List Str) :=
  matchAllAux ceq ps (s.length + 1) s

/-- JS `String.prototype.includes` with a literal pattern. -/
def containsSub (pat : Str) : Str → Bool
  | [] => pat.isEmpty
  | c :: t => litMatch ceqExact pat (c :: t) || containsSub pat t

/-- JS `String.prototype.startsWith`. -/
def startsWithStr (pre s : Str) : Bool := litMatch ceqExact pre s

/-- JS `replace` with a plain-string pattern: replace the first occurrence
only. -/
def replaceFirstLit (pat rep : Str) : Str → Str
  | [] => []
  | c :: t =>
    if !pat.isEmpty && litMatch ceqExact pat (c :: t) then
      rep ++ (c :: t).drop pat.length
    else c :: replaceFirstLit pat rep t

/-- JS `replace(/lit/g, rep)`: replace every non-overlapping occurrence,
left to right.  Fuel-based so the kernel can evaluate it; each step consumes
at least one char, so `fuel = length` is always enough. -/
def replaceAllLitF (pat rep : Str) : Nat → Str → Str
  | 0, s => s
  | _, [] => []
  | fuel + 1, c :: t =>
    if !pat.isEmpty && litMatch ceqExact pat (c :: t) then
      rep ++ replaceAllLitF pat rep fuel ((c :: t).drop pat.length)
    else c :: replaceAllLitF pat rep fuel t

def replaceAllLit (pat rep s : Str) : Str := replaceAllLitF pat rep s.length s

/-- Numeric value of a digit string (JS `Number` coercion of a `\d+` match).
JS `Number` would lose precision beyond 2^53 — only reachable with numeric
entities of 17+ digits, which none of the claims involve. -/
def digitsToNat (ds : Str) : Nat :=
  ds.foldl (fun n c => n * 10 + (c.toNat - 48)) 0

/-- JS `replace(/&#(\d+);/g, (_, dec) => String.fromCharCode(dec))`.
`fromCharCode` truncates to a UTF-16 code unit (mod 65536); a surrogate code
unit, unrepresentable as a `Char`, becomes the `Char.ofNat` default value — a
divergence no claim reaches (both sides are single non-whitespace units). -/
def decodeNumEntF : Nat → Str → Str
  | 0, s => s
  | _, [] => []
  | fuel + 1, '&' :: '#' :: t =>
    let ds := t.takeWhile Char.isDigit
    let semiNext : Bool :=
      match t.drop ds.length with
      | c :: _ => c == ';'
      | [] => false
    if !ds.isEmpty && semiNext then
      Char.ofNat (digitsToNat ds % 65536) :: decodeNumEntF fuel (t.drop (ds.length + 1))
    else '&' :: decodeNumEntF fuel ('#' :: t)
  | fuel + 1, c :: t => c :: decodeNumEntF fuel t

def decodeNumericEntities (s : Str) : Str := decodeNumEntF s.length s

/-- src/lib/rss.ts `decodeHtmlEntities`: the seven literal replacements in
source order, then the numeric-entity pass. -/
def decodeHtmlEntities (text : Str) : Str :=
  let t1 := replaceAllLit "&#x27;".data [aposChar] text
  let t2 := replaceAllLit "&#39;".data [aposChar] t1
  let t3 := replaceAllLit "&apos;".data [aposChar] t2
  let t4 := replaceAllLit "&quot;".data [quoteChar] t3
  let t5 := replaceAllLit "&amp;".data "&".data t4
  let t6 := replaceAllLit "&lt;".data "<".data t5
  let t7 := replaceAllLit "&gt;".data ">".data t6
  decodeNumericEntities t7

/-- JS `replace(/\s+/g, ' ')`: collapse every whitespace run to one space. -/
def collapseWsF : Nat → Str → Str
  | 0, s => s
  | _, [] => []
  | fuel + 1, c :: t =>
    if wsp c then ' ' :: collapseWsF fuel (t.dropWhile wsp)
    else c :: collapseWsF fuel t

def collapseWs (s : Str) : Str := collapseWsF s.length s

/-- JS `String.prototype.trim` (over `wsp`). -/
def trimStr (s : Str) : Str :=
  ((s.dropWhile wsp).reverse.dropWhile wsp).reverse

/-- JS replace of the regex \s+\S*$ by the empty string: remove the trailing (possibly partial) word
together with the whitespace run before it; identity when the string has no
whitespace (the regex then has no match). -/
def stripLastWord (s : Str) : Str :=
  if (s.reverse.dropWhile (fun c => !wsp c)).isEmpty then s
  else ((s.reverse.dropWhile (fun c => !wsp c)).dropWhile wsp).reverse

/-- The truncation point `stem` (the output minus the appended ellipsis)
cuts `cleaned` in the middle of a word: the cut is strictly inside the text
and has non-whitespace on both of its sides. -/
def endsMidWord (cleaned stem : Str) : Bool :=
  decide (stem.length < cleaned.length) &&
  (match stem.reverse with
   | [] => false
   | c :: _ => !wsp c) &&
  (match cleaned.drop stem.length with
   | [] => false
   | c :: _ => !wsp c)

/-! ### Data model (src/lib/types.ts and the item shape of the parser) -/

/-- The `enclosure` custom field of a feed item (url + media type; the
optional `length` field is never read by the source). -/
structure Enclosure where
  url : Str
  type : Str
  deriving DecidableEq

/-- A raw feed item as produced by the rss parser (`CustomItem` in
src/lib/rss.ts).  Every field is optional in TS; `none` is JS `undefined`. -/
structure CustomItem where
  title? : Option Str := none
  link? : Option Str := none
  pubDate? : Option Str := none
  content? : Option Str := none
  contentSnippet? : Option Str := none
  enclosure? : Option Enclosure := none
  itunesDuration? : Option Str := none
  itunesImage? : Option Str := none
  deriving DecidableEq

structure SubstackPost where
  title : Str
  link : Str
  pubDate : Str
  excerpt : Str
  content : Str
  image : Option Str
  deriving DecidableEq

structure PodcastEpisode where
  title : Str
  link : Str
  pubDate : Str
  excerpt : Str
  duration : Option Str := none
  audioUrl : Option Str := none
  deriving DecidableEq, Inhabited

/-- JS `a || b` on an optional string: `undefined` and the empty string are falsy. -/
def orDefault (o : Option Str) (d : Str) : Str :=
  match o with
  | some s => if s.isEmpty then d else s
  | none => d

def orEmpty (o : Option Str) : Str := orDefault o []

/-! ### src/lib/rss.ts -/

/-- The headphone emoji U+1F3A7 appearing (UTF-8-mangled in the editor, but
a single code point at runtime) in `isPodcastEpisode` and
`transformToPodcast`. -/
def headphoneEmoji : Char := Char.ofNat 0x1F3A7

/-- The regex `/episode\s*\d/i`. -/
def episodePat : List RE :=
  [.lit "episode".data, .cls wsp false, .single Char.isDigit]

/-- src `isPodcastEpisode`: title contains the headphone emoji, or matches
`/episode\s*\d/i`.  (The enclosure is not consulted.) -/
def isPodcastEpisode (item : CustomItem) : Bool :=
  let title := orEmpty item.title?
  title.contains headphoneEmoji || (matchFirst ceqCI episodePat title).isSome

/-- src `hasImageEnclosure`:
enclosure present, media type truthy, and media type starting with image/. -/
def hasImageEnclosure (item : CustomItem) : Bool :=
  match item.enclosure? with
  | some e => !e.type.isEmpty && startsWithStr "image/".data e.type
  | none => false

/-- The regex `/<img[^>]+src="([^"]+)"/g`; the capture is chunk 3. -/
def imgPat : List RE :=
  [.lit "<img".data, .cls (fun c => c != '>') true,
   .lit "src=\"".data, .cls (fun c => c != quoteChar) true, .lit [quoteChar]]

def imgCaptures (content : Str) : List Str :=
  (matchAll ceqExact imgPat content).filterMap (fun cs => cs[3]?)

/-- The `if` test inside the loop of `extractImageFromContent`:
url truthy and url containing neither of the markers _48x and _24x. -/
def goodImgUrl (url : Str) : Bool :=
  !url.isEmpty && !containsSub "_48x".data url && !containsSub "_24x".data url

/-- The `for (const match of imgMatches)` loop body of
`extractImageFromContent`: return the first capture passing the test. -/
def firstGoodImg : List Str → Option Str
  | [] => none
  | url :: rest => if goodImgUrl url then some url else firstGoodImg rest

def extractImageFromContent (content : Str) : Option Str :=
  firstGoodImg (imgCaptures content)

/-- `item.enclosure?.url`, with JS `undefined` collapsing to a falsy value
(only its truthiness and its value-when-present are ever used). -/
def enclosureUrlOf (item : CustomItem) : Str :=
  match item.enclosure? with
  | some e => e.url
  | none => []

/-- src `getImageForPost`. -/
def getImageForPost (item : CustomItem) : Option Str :=
  if hasImageEnclosure item && !(enclosureUrlOf item).isEmpty then
    some (enclosureUrlOf item)
  else
    match item.content? with
    | some c => if !c.isEmpty then extractImageFromContent c else none
    | none => none

/-- src `cleanExcerpt` without the early `!snippet` return: decode entities,
collapse whitespace, trim. -/
def cleanedText (s : Str) : Str :=
  trimStr (collapseWs (decodeHtmlEntities s))

/-- src `cleanExcerpt`.  The TS default `maxLength = 200` is passed
explicitly at each call site of the embedding. -/
def cleanExcerpt (snippet : Option Str) (maxLength : Nat) : Str :=
  match snippet with
  | none => []
  | some sn =>
    if sn.isEmpty then []
    else
      let cleaned := cleanedText sn
      if cleaned.length ≤ maxLength then cleaned
      else stripLastWord (cleaned.take maxLength) ++ "...".data

/-- src `transformToPost`; `now` stands for `new Date().toISOString()`. -/
def transformToPost (now : Str) (item : CustomItem) : SubstackPost :=
  { title := orDefault item.title? "Untitled".data
    link := orEmpty item.link?
    pubDate := orDefault item.pubDate? now
    excerpt := cleanExcerpt item.contentSnippet? 200
    content := orEmpty item.content?
    image := getImageForPost item }

/-- JS replace of the anchored regex (headphone emoji then \s*) by the empty string: strip one leading headphone emoji and the
whitespace run after it. -/
def stripLeadingEmoji (s : Str) : Str :=
  match s with
  | c :: t => if c = headphoneEmoji then t.dropWhile wsp else s
  | [] => s

/-- src `transformToPodcast`. -/
def transformToPodcast (now : Str) (item : CustomItem) : PodcastEpisode :=
  { title := trimStr (stripLeadingEmoji (orDefault item.title? "Untitled Episode".data))
    link := orEmpty item.link?
    pubDate := orDefault item.pubDate? now
    excerpt := cleanExcerpt item.contentSnippet? 200
    duration := item.itunesDuration?
    audioUrl := item.enclosure?.map (fun e => e.url) }

/-- src `fetchSubstackFeed`: parse result on success, `[]` on any thrown
error (the `catch` branch). -/
def fetchSubstackFeed (feedResult : Except Unit (List CustomItem)) : List CustomItem :=
  match feedResult with
  | .ok items => items
  | .error _ => []

/-- The regex `/<loc>(https:\/\/stillsmall\.substack\.com\/p\/[^<]+)<\/loc>/g`;
the capture spans chunks 1 and 2. -/
def locPat : List RE :=
  [.lit "<loc>".data, .lit "https://stillsmall.substack.com/p/".data,
   .cls (fun c => c != '<') true, .lit "</loc>".data]

def extractLocs (xml : Str) : List Str :=
  (matchAll ceqExact locPat xml).filterMap (fun cs =>
    match cs[1]?, cs[2]? with
    | some a, some b => some (a ++ b)
    | _, _ => none)

/-- src `fetchSitemapUrls`: extract the location URLs, `[]` on a thrown
fetch error. -/
def fetchSitemapUrls (sitemapResult : Except Unit Str) : List Str :=
  match sitemapResult with
  | .ok xml => extractLocs xml
  | .error _ => []

/-- Chunk layout of `/<meta[^>]*PROP[^>]*content="([^"]+)"/`: the capture is
chunk 5. -/
def metaPat (prop : Str) : List RE :=
  [.lit "<meta".data, .cls (fun c => c != '>') false, .lit prop,
   .cls (fun c => c != '>') false, .lit "content=\"".data,
   .cls (fun c => c != quoteChar) true, .lit [quoteChar]]

def ogTitlePat : List RE := metaPat "property=\"og:title\"".data

/-- The regex `/<title>([^<]+)<\/title>/i`; capture is chunk 1. -/
def titleTagPat : List RE :=
  [.lit "<title>".data, .cls (fun c => c != '<') true, .lit "</title>".data]

def pubTimePat : List RE := metaPat "property=\"article:published_time\"".data

/-- The regex `/"datePublished"\s*:\s*"([^"]+)"/` (case-sensitive); capture
is chunk 5. -/
def datePubPat : List RE :=
  [.lit ("\"datePublished\"".data), .cls wsp false, .lit ":".data,
   .cls wsp false, .lit [quoteChar], .cls (fun c => c != quoteChar) true,
   .lit [quoteChar]]

def ogDescPat : List RE := metaPat "property=\"og:description\"".data

def nameDescPat : List RE := metaPat "name=\"description\"".data

def ogImagePat : List RE := metaPat "property=\"og:image\"".data

/-- JS `html.match(re)` (no `/g`) followed by `[1]`: the single capture of
the first match. -/
def firstCapture (ceq : Char → Char → Bool) (ps : List RE) (idx : Nat) (s : Str) :
    Option Str :=
  (matchFirst ceq ps s).bind (fun r => r.1[idx]?)

def ogTitleCap (html : Str) : Option Str := firstCapture ceqCI ogTitlePat 5 html

def titleTagCap (html : Str) : Option Str := firstCapture ceqCI titleTagPat 1 html

def pubTimeCap (html : Str) : Option Str := firstCapture ceqCI pubTimePat 5 html

def datePubCap (html : Str) : Option Str := firstCapture ceqExact datePubPat 5 html

def ogDescCap (html : Str) : Option Str := firstCapture ceqCI ogDescPat 5 html

def nameDescCap (html : Str) : Option Str := firstCapture ceqCI nameDescPat 5 html

def ogImageCap (html : Str) : Option Str := firstCapture ceqCI ogImagePat 5 html

/-- src `fetchPostMetadata`: scrape one archive page.  `pages` is the fetch
oracle (`.error` = the fetch threw, caught by the source and turned into
`null`); `now` stands for `new Date().toISOString()`. -/
def fetchPostMetadata (pages : Str → Except Unit Str) (now : Str) (url : Str) :
    Option SubstackPost :=
  match pages url with
  | .error _ => none
  | .ok html =>
    let titleMatch := (ogTitleCap html).orElse (fun _ => titleTagCap html)
    let title :=
      match titleMatch with
      | some cap => trimStr (replaceFirstLit " - Still Small".data [] cap)
      | none => "Untitled".data
    let pubDate :=
      match (pubTimeCap html).orElse (fun _ => datePubCap html) with
      | some d => d
      | none => now
    let excerpt :=
      match (ogDescCap html).orElse (fun _ => nameDescCap html) with
      | some d => cleanExcerpt (some d) 200
      | none => []
    let image := ogImageCap html
    some { title := title, link := url, pubDate := pubDate,
           excerpt := excerpt, content := [], image := image }

def EXCLUDED_URL_PATTERNS : List Str :=
  ["/p/episode-".data,
   "/p/7-maintaining-awe-and-wonder".data,
   "/p/6-the-unconventional-route".data,
   "/p/welcome-to-still-small".data]

/-- src `isExcludedUrl`. -/
def isExcludedUrl (url : Str) : Bool :=
  EXCLUDED_URL_PATTERNS.any (fun pat => containsSub pat url)

/-- The network / clock oracles of one aggregation run. -/
structure Env where
  feedResult : Except Unit (List CustomItem)
  sitemapResult : Except Unit Str
  pages : Str → Except Unit Str
  now : Str
  dateVal : Str → Int

/-- `list.sort((a, b) => new Date(b.KEY).getTime() - new Date(a.KEY).getTime())`:
a stable sort, descending in `dateVal`.  The comparator is a total preorder
for every `dateVal`, so the stable-sort result is unique and
`insertionSort` reproduces the JS (TimSort) result. -/
def sortByDateDesc (dateVal : Str → Int) (key : α → Str) (l : List α) : List α :=
  l.insertionSort (fun a b => dateVal (key b) ≤ dateVal (key a))

/-- The RSS half of `getPosts`. -/
def rssPostsOf (env : Env) : List SubstackPost :=
  ((fetchSubstackFeed env.feedResult).filter (fun i => !isPodcastEpisode i)).map
    (transformToPost env.now)

/-- The sitemap URLs that `getPosts` crawls (`olderUrls`). -/
def olderUrlsOf (env : Env) : List Str :=
  let rssUrls := (rssPostsOf env).map (fun p => p.link)
  (fetchSitemapUrls env.sitemapResult).filter
    (fun u => !rssUrls.contains u && !isExcludedUrl u)

/-- The batched crawl loop of `getPosts`.  The batches of 10 only bound
concurrency; results are appended in URL order, so the output is the
order-preserving `filterMap` below. -/
def olderPostsOf (env : Env) : List SubstackPost :=
  (olderUrlsOf env).filterMap (fun u =>
    match fetchPostMetadata env.pages env.now u with
    | some p => if !isPodcastEpisode { title? := some p.title } then some p else none
    | none => none)

/-- src `getPosts`. -/
def getPosts (env : Env) : List SubstackPost :=
  sortByDateDesc env.dateVal (fun p => p.pubDate) (rssPostsOf env ++ olderPostsOf env)

/-- src `STATIC_PODCASTS`. -/
def STATIC_PODCASTS : List PodcastEpisode :=
  [{ title := "Maintaining Awe and Wonder with Sara Kaiser".data
     link := "https://stillsmall.substack.com/p/7-maintaining-awe-and-wonder".data
     pubDate := "2023-10-18".data
     excerpt := "A conversation exploring nature".data ++ [aposChar] ++
       "s significance, intuitive listening, imagination and creativity.".data
     duration := some "61 min".data },
   { title := "The Unconventional Route with Chris Blachut".data
     link := "https://stillsmall.substack.com/p/6-the-unconventional-route".data
     pubDate := "2023-09-27".data
     excerpt := "Exploring the path less traveled and creating your own route in life.".data
     duration := some "55 min".data },
   { title := "Creativity and Connection with Rachael Maier".data
     link := "https://stillsmall.substack.com/p/episode-5-creativity-and-connection".data
     pubDate := "2023-09-13".data
     excerpt := "A discussion about the intersection of creativity and human connection.".data
     duration := some "52 min".data },
   { title := "Prioritizing Relationships with Jason Lakis".data
     link := "https://stillsmall.substack.com/p/episode-4-prioritizing-relationships".data
     pubDate := "2023-08-30".data
     excerpt := "How to put relationships first in a world that prioritizes productivity.".data
     duration := some "48 min".data },
   { title := "Middle School Feelings with Rachel".data
     link := "https://stillsmall.substack.com/p/episode-3-middle-school-feelings".data
     pubDate := "2023-08-16".data
     excerpt := "Revisiting the emotions and experiences of middle school years.".data
     duration := some "45 min".data },
   { title := "Mother-Daughter Relationships with Elise Porter".data
     link := "https://stillsmall.substack.com/p/episode-2-mother-daughter-relationships".data
     pubDate := "2023-08-02".data
     excerpt := "Exploring the complex and beautiful bond between mothers and daughters.".data
     duration := some "50 min".data },
   { title := "The Decision to Have Children with Allison Doering".data
     link := "https://stillsmall.substack.com/p/episode-1-the-decision-to-have-children".data
     pubDate := "2023-07-19".data
     excerpt := "A thoughtful conversation about the decision to become a parent.".data
     duration := some "47 min".data }]

/-- The RSS half of `getPodcasts`. -/
def rssEpisodesOf (env : Env) : List PodcastEpisode :=
  ((fetchSubstackFeed env.feedResult).filter isPodcastEpisode).map
    (transformToPodcast env.now)

/-- The `for (const staticEp of STATIC_PODCASTS)` gap-fill loop of
`getPodcasts` (the `.some(...)` / `push` body, as a fold). -/
def addStatics (acc : List PodcastEpisode) (statics : List PodcastEpisode) :
    List PodcastEpisode :=
  statics.foldl
    (fun acc s => if acc.any (fun e => e.link == s.link) then acc else acc ++ [s])
    acc

/-- src `getPodcasts`. -/
def getPodcasts (env : Env) : List PodcastEpisode :=
  sortByDateDesc env.dateVal (fun e => e.pubDate)
    (addStatics (rssEpisodesOf env) STATIC_PODCASTS)

/-- src `getLatestPosts` (TS default `count = 6` is passed by callers in the
embedding). -/
def getLatestPosts (env : Env) (count : Nat) : List SubstackPost :=
  (getPosts env).take count

/-- src `getLatestPodcasts` (TS default `count = 3`). -/
def getLatestPodcasts (env : Env) (count : Nat) : List PodcastEpisode :=
  (getPodcasts env).take count

/-! ### src/lib/books.ts -/

/-- src/lib/types.ts `Book`.  The numeric fields are modelled as `Int`; no
claim performs arithmetic on them. -/
structure Book where
  id : Str
  title : Str
  author : Str
  myRating : Int
  averageRating : Option Int := none
  yearPublished : Option Int := none
  dateRead : Option Str := none
  review : Option Str := none
  deriving DecidableEq

def asciiLowerStr (s : Str) : Str := s.map lowerAscii

/-- src `hasSubstantialReview`. -/
def hasSubstantialReview (review : Option Str) : Bool :=
  match review with
  | none => false
  | some r =>
    if r.isEmpty then false
    else
      let trimmed := asciiLowerStr (trimStr r)
      if trimmed.length < 20 then false
      else if trimmed == "no notes".data || trimmed == "no notes.".data then false
      else true

/-- JS truthiness of `book.dateRead` (optional string). -/
def dateReadTruthy (o : Option Str) : Bool :=
  match o with
  | some (_ :: _) => true
  | _ => false

/-- src `getFeaturedBooks`.  The static `books.json` data file is not part
of the sources, so the book list is a parameter; every claim about this
function holds for all data. -/
def getFeaturedBooks (books : List Book) (count : Nat) : List Book :=
  (books.filter (fun b => dateReadTruthy b.dateRead && hasSubstantialReview b.review)).take
    count

/-! ### Concrete inputs used by counterexamples and witnesses -/

/-- A feed item with an `audio/` enclosure but a title matching neither
title heuristic. -/
def c1item : CustomItem :=
  { title? := some "Hello".data
    enclosure? := some { url := "https://x/a.mp3".data, type := "audio/mpeg".data } }

def c1titleOnly : CustomItem := { title? := some "Hello".data }

def c2item : CustomItem := { title? := some "Title".data, link? := some "https://x/L".data }

/-- A run whose feed contains the same entry twice. -/
def c2env : Env :=
  { feedResult := .ok [c2item, c2item]
    sitemapResult := .error ()
    pages := fun _ => .error ()
    now := "2024-01-01".data
    dateVal := fun _ => 0 }

/-- A run whose sitemap contains one fresh URL and whose pages all resolve. -/
def c2goodEnv : Env :=
  { feedResult := .ok [c2item]
    sitemapResult := .ok "<loc>https://stillsmall.substack.com/p/hello</loc>".data
    pages := fun _ => .ok "x".data
    now := "2024-01-01".data
    dateVal := fun _ => 0 }

/-- The word that `cleanExcerpt` must cut mid-word: 8 equal letters with
`maxLength = 5`. -/
def c4word : Str := List.replicate 8 'a'

/-- The link values (link or empty) of the raw feed items — the
identities of the primary source. -/
def feedItemLinks (env : Env) : List Str :=
  (fetchSubstackFeed env.feedResult).map (fun i => orEmpty i.link?)

/-- The first static podcast episode. -/
def c5ep : PodcastEpisode := STATIC_PODCASTS.headI

/-- A run with every fetch failing. -/
def c5env : Env :=
  { feedResult := .error ()
    sitemapResult := .error ()
    pages := fun _ => .error ()
    now := "2024-01-01".data
    dateVal := fun _ => 0 }

/-- A run where the primary feed fetch throws but the sitemap fetch
succeeds with one crawlable URL. -/
def c6env : Env :=
  { feedResult := .error ()
    sitemapResult := .ok "<loc>https://stillsmall.substack.com/p/hello</loc>".data
    pages := fun _ => .ok "x".data
    now := "2024-01-01".data
    dateVal := fun _ => 0 }

/-- An item with an image enclosure whose URL is the empty string, plus an
embedded content image. -/
def c7item : CustomItem :=
  { enclosure? := some { url := [], type := "image/png".data }
    content? := some "<img src=\"https://x/a.png\">".data }

/-- An item with a normal image enclosure. -/
def c7okItem : CustomItem :=
  { enclosure? := some { url := "https://x/thumb.png".data, type := "image/png".data } }

def c10book : Book :=
  { id := "1".data, title := "T".data, author := "A".data, myRating := 5
    dateRead := some "2024-01-01".data
    review := some "This book was excellent and insightful.".data }

/-! ### Helper lemmas -/

/-- The comparator `(a, b) => dateVal(b) - dateVal(a)` is a total preorder
for every `dateVal`, so the embedded stable sort is sorted w.r.t. it. -/
theorem sortByDateDesc_sorted (dateVal : Str → Int) (key : α → Str) (l : List α) :
    List.Sorted (fun a b => dateVal (key b) ≤ dateVal (key a))
      (sortByDateDesc dateVal key l) := by
  haveI : IsTotal α (fun a b => dateVal (key b) ≤ dateVal (key a)) :=
    ⟨fun a b => le_total _ _⟩
  haveI : IsTrans α (fun a b => dateVal (key b) ≤ dateVal (key a)) :=
    ⟨fun a b c hab hbc => le_trans hbc hab⟩
  exact List.sorted_insertionSort _ _

/-- The embedded sort permutes its input. -/
theorem sortByDateDesc_perm (dateVal : Str → Int) (key : α → Str) (l : List α) :
    (sortByDateDesc dateVal key l).Perm l :=
  List.perm_insertionSort _ _

/-- The image-scanning loop returns the first qualifying capture. -/
theorem firstGoodImg_eq_find (l : List Str) :
    firstGoodImg l = l.find? goodImgUrl := by
  induction l with
  | nil => rfl
  | cons u rest ih => by_cases h : goodImgUrl u <;> simp [firstGoodImg, List.find?, h, ih]

/-- The head of a non-trivial `dropWhile` residue fails the predicate. -/
theorem dropWhile_head_false (p : Char → Bool) (l : Str) (c : Char) (t : Str)
    (h : l.dropWhile p = c :: t) : p c = false := by
  induction l with
  | nil => simp [List.dropWhile] at h
  | cons a l ih =>
    rw [List.dropWhile_cons] at h
    by_cases hp : p a
    · rw [if_pos hp] at h; exact ih h
    · rw [if_neg hp] at h
      cases h
      simpa using hp

/-- The trailing-word strip never lengthens the string. -/
theorem stripLastWord_length_le (s : Str) : (stripLastWord s).length ≤ s.length := by
  rw [stripLastWord]
  by_cases h : (s.reverse.dropWhile (fun c => !wsp c)).isEmpty
  · simp [h]
  · rw [if_neg (by simp [h])]
    rw [List.length_reverse]
    calc ((s.reverse.dropWhile (fun c => !wsp c)).dropWhile wsp).length
        ≤ (s.reverse.dropWhile (fun c => !wsp c)).length :=
          (List.dropWhile_sublist wsp).length_le
      _ ≤ s.reverse.length := (List.dropWhile_sublist _).length_le
      _ = s.length := List.length_reverse s

/-- If `s` contains whitespace then `s` splits as `stripLastWord s`
followed by a whitespace char: the regex `/\s+\S*$/` matched, and the strip
cut the string right before a whitespace run. -/
theorem stripLastWord_split (s : Str) (h : ∃ c ∈ s, wsp c = true) :
    ∃ c t, s = stripLastWord s ++ c :: t ∧ wsp c = true := by
  obtain ⟨c0, hc0mem, hc0⟩ := h
  have hsplit : s.reverse.takeWhile (fun c => !wsp c) ++
      s.reverse.dropWhile (fun c => !wsp c) = s.reverse :=
    List.takeWhile_append_dropWhile _ _
  obtain ⟨b, r1t, hb⟩ : ∃ b r1t, s.reverse.dropWhile (fun c => !wsp c) = b :: r1t := by
    cases hcase : s.reverse.dropWhile (fun c => !wsp c) with
    | nil =>
      exfalso
      rw [hcase, List.append_nil] at hsplit
      have hc0r : c0 ∈ s.reverse.takeWhile (fun c => !wsp c) := by
        rw [hsplit]
        exact List.mem_reverse.mpr hc0mem
      have hph := List.mem_takeWhile_imp hc0r
      rw [hc0] at hph
      simp at hph
    | cons b r1t => exact ⟨b, r1t, rfl⟩
  have hwb : wsp b = true := by
    have hph := dropWhile_head_false (fun c => !wsp c) s.reverse b r1t hb
    simpa using hph
  have hstrip : stripLastWord s = ((b :: r1t).dropWhile wsp).reverse := by
    rw [stripLastWord, hb]
    simp
  have hs : s = (s.reverse.takeWhile (fun c => !wsp c) ++
      ((b :: r1t).takeWhile wsp ++ (b :: r1t).dropWhile wsp)).reverse := by
    rw [List.takeWhile_append_dropWhile, ← hb, hsplit, List.reverse_reverse]
  obtain ⟨w, tW, hWrev⟩ : ∃ w tW, ((b :: r1t).takeWhile wsp).reverse = w :: tW := by
    rw [List.takeWhile_cons_of_pos hwb]
    cases hcase : (b :: r1t.takeWhile wsp).reverse with
    | nil => exact absurd (congrArg List.length hcase) (by simp)
    | cons w tW => exact ⟨w, tW, rfl⟩
  have hww : wsp w = true := by
    have hwmem : w ∈ (b :: r1t).takeWhile wsp := by
      rw [← List.mem_reverse, hWrev]
      exact List.mem_cons_self _ _
    exact List.mem_takeWhile_imp hwmem
  refine ⟨w, tW ++ (s.reverse.takeWhile (fun c => !wsp c)).reverse, ?_, hww⟩
  rw [hstrip]
  conv_lhs => rw [hs]
  rw [List.reverse_append, List.reverse_append, hWrev]
  simp [List.append_assoc]

/-- Permutations preserve occurrence counts (over any `BEq`). -/
theorem perm_count_eq [BEq α] {l₁ l₂ : List α} (h : l₁.Perm l₂) (a : α) :
    l₁.count a = l₂.count a :=
  h.countP_eq _

/-- In a duplicate-free list, a member has count 1 (over any lawful `BEq`). -/
theorem nodup_count_eq_one [BEq α] [LawfulBEq α] {l : List α} (d : l.Nodup) {a : α}
    (h : a ∈ l) : l.count a = 1 := by
  induction l with
  | nil => simp at h
  | cons b t ih =>
    rw [List.nodup_cons] at d
    obtain ⟨hb, ht⟩ := d
    rcases List.mem_cons.mp h with rfl | hmem
    · rw [List.count_cons_self, List.count_eq_zero.mpr hb]
    · have hne : ¬ (a == b) = true := by
        intro hab
        rw [beq_iff_eq] at hab
        subst hab
        exact hb hmem
      have hne' : ¬ b = a := fun hba => hne (by subst hba; simp)
      rw [List.count_cons, ih ht hmem]
      simp [hne, hne']

/-- Unfolding one step of the gap-fill fold. -/
theorem addStatics_cons (acc : List PodcastEpisode) (s : PodcastEpisode)
    (l : List PodcastEpisode) :
    addStatics acc (s :: l) =
      addStatics (if acc.any (fun e => e.link == s.link) then acc else acc ++ [s]) l :=
  rfl

/-- When the static links are pairwise distinct, the gap-fill fold appends
exactly the statics whose link is absent from the accumulator. -/
theorem addStatics_eq (acc : List PodcastEpisode) (l : List PodcastEpisode)
    (hl : (l.map (fun e => e.link)).Nodup) :
    addStatics acc l =
      acc ++ l.filter (fun s => !acc.any (fun e => e.link == s.link)) := by
  induction l generalizing acc with
  | nil => simp [addStatics]
  | cons s l ih =>
    rw [List.map_cons, List.nodup_cons] at hl
    obtain ⟨hs, hl'⟩ := hl
    rw [addStatics_cons]
    by_cases hhit : acc.any (fun e => e.link == s.link)
    · rw [if_pos hhit, ih acc hl', List.filter_cons]
      simp [hhit]
    · rw [if_neg hhit, ih (acc ++ [s]) hl', List.filter_cons]
      have hconds : (!acc.any (fun e => e.link == s.link)) = true := by
        simp [hhit]
      rw [if_pos hconds]
      have hfeq : l.filter (fun x => !(acc ++ [s]).any (fun e => e.link == x.link)) =
          l.filter (fun x => !acc.any (fun e => e.link == x.link)) := by
        apply List.filter_congr
        intro x hx
        have hxs : ¬ (s.link == x.link) = true := by
          intro heq
          apply hs
          rw [beq_iff_eq] at heq
          rw [heq]
          exact List.mem_map_of_mem _ hx
        simp [List.any_append, hxs]
      rw [hfeq]
      simp [List.append_assoc]

/-- A crawled post keeps its URL as its `link`. -/
theorem fetchPostMetadata_link (pages : Str → Except Unit Str) (now url : Str)
    (q : SubstackPost) (h : fetchPostMetadata pages now url = some q) : q.link = url := by
  rw [fetchPostMetadata.eq_def] at h
  cases hp : pages url with
  | error e => rw [hp] at h; simp at h
  | ok html =>
    rw [hp] at h
    simp only [Option.some.injEq] at h
    rw [← h]

/-- The links of a link-preserving `filterMap` form a sublist of the inputs. -/
theorem filterMap_link_sublist (g : Str → Option SubstackPost)
    (hg : ∀ u p, g u = some p → p.link = u) (l : List Str) :
    ((l.filterMap g).map (fun p => p.link)).Sublist l := by
  induction l with
  | nil => simp
  | cons u l ih =>
    rw [List.filterMap_cons]
    cases hgu : g u with
    | none => exact ih.cons u
    | some p =>
      rw [List.map_cons, hg u p hgu]
      exact ih.cons₂ u

/-- The crawl loop of `getPosts` preserves its URLs as links. -/
theorem olderPosts_links_sublist (env : Env) :
    ((olderPostsOf env).map (fun p => p.link)).Sublist (olderUrlsOf env) := by
  rw [olderPostsOf]
  apply filterMap_link_sublist
  intro u p hgp
  cases hm : fetchPostMetadata env.pages env.now u with
  | none => rw [hm] at hgp; simp at hgp
  | some q =>
    rw [hm] at hgp
    by_cases hc : isPodcastEpisode { title? := some q.title }
    · simp [hc] at hgp
    · simp only [hc, Bool.not_false, if_true] at hgp
      cases hgp
      exact fetchPostMetadata_link env.pages env.now u _ hm

/-- The RSS post links are the feed links of the non-podcast items. -/
theorem rssPosts_links (env : Env) :
    (rssPostsOf env).map (fun p => p.link) =
      ((fetchSubstackFeed env.feedResult).filter (fun i => !isPodcastEpisode i)).map
        (fun i => orEmpty i.link?) := by
  rw [rssPostsOf, List.map_map]
  rfl

/-- The RSS episode links are the feed links of the podcast items. -/
theorem rssEpisodes_links (env : Env) :
    (rssEpisodesOf env).map (fun e => e.link) =
      ((fetchSubstackFeed env.feedResult).filter isPodcastEpisode).map
        (fun i => orEmpty i.link?) := by
  rw [rssEpisodesOf, List.map_map]
  rfl

/-! ### Claims -/

/-- C1 counterexample: `c1item` has an enclosure whose media type starts
with `audio/`, yet `isPodcastEpisode` returns `false` — the classifier never
looks at the enclosure, only at the title. -/
theorem c1_counterexample :
    c1item.enclosure? = some { url := "https://x/a.mp3".data, type := "audio/mpeg".data } ∧
    startsWithStr "audio/".data "audio/mpeg".data = true ∧
    isPodcastEpisode c1item = false :=
  ⟨rfl, by decide, by decide⟩

/-- C1 (amended): the classifier is a function of the title of the entry alone
(headphone emoji or `/episode\s*\d/i`); the attachment is ignored, so an
`audio/` attachment with a non-matching title yields `false`. -/
theorem c1_classifier_ignores_enclosure (i j : CustomItem) (h : i.title? = j.title?) :
    isPodcastEpisode i = isPodcastEpisode j := by
  simp only [isPodcastEpisode, h]

/-- C1 witness: the amended theorem applied to `c1item` and its
title-only restriction. -/
theorem c1_witness :
    c1item.title? = c1titleOnly.title? ∧
    isPodcastEpisode c1item = isPodcastEpisode c1titleOnly :=
  ⟨rfl, c1_classifier_ignores_enclosure c1item c1titleOnly rfl⟩

/-- C2 counterexample: a feed containing the same entry twice yields a
`getPosts` list with two entries of the same link — deduplication happens
only across sources, not within one. -/
theorem c2_counterexample :
    c2env.feedResult = .ok [c2item, c2item] ∧
    ((getPosts c2env).map (fun p => p.link)).count "https://x/L".data = 2 :=
  ⟨rfl, by decide⟩

/-- C2 (amended): provided each input source has pairwise-distinct links
(feed items and sitemap URLs; distinctness of the static table links is proved),
the produced lists have pairwise-distinct links, and a link present in the
RSS source occurs exactly once in the aggregate even when another source
also carries it.  Duplicates inside a single source are preserved
(counterexample). -/
theorem c2_links_nodup (env : Env)
    (hfeed : (feedItemLinks env).Nodup)
    (hsm : (fetchSitemapUrls env.sitemapResult).Nodup) :
    ((getPosts env).map (fun p => p.link)).Nodup ∧
    ((getPodcasts env).map (fun e => e.link)).Nodup ∧
    (∀ u, u ∈ (rssPostsOf env).map (fun p => p.link) →
      ((getPosts env).map (fun p => p.link)).count u = 1) ∧
    (∀ u, u ∈ (rssEpisodesOf env).map (fun e => e.link) →
      ((getPodcasts env).map (fun e => e.link)).count u = 1) := by
  have hrssN : ((rssPostsOf env).map (fun p => p.link)).Nodup := by
    rw [rssPosts_links]
    exact hfeed.sublist ((List.filter_sublist _).map _)
  have holdUrlsN : (olderUrlsOf env).Nodup := hsm.filter _
  have holdN : ((olderPostsOf env).map (fun p => p.link)).Nodup :=
    holdUrlsN.sublist (olderPosts_links_sublist env)
  have holdNotRss : ∀ u ∈ (olderPostsOf env).map (fun p => p.link),
      u ∉ (rssPostsOf env).map (fun p => p.link) := by
    intro u hu
    have humem : u ∈ olderUrlsOf env := (olderPosts_links_sublist env).subset hu
    rw [olderUrlsOf, List.mem_filter] at humem
    obtain ⟨-, hcond⟩ := humem
    rw [Bool.and_eq_true] at hcond
    obtain ⟨hnc, -⟩ := hcond
    simpa using hnc
  have hpermP : ((getPosts env).map (fun p => p.link)).Perm
      ((rssPostsOf env).map (fun p => p.link) ++ (olderPostsOf env).map (fun p => p.link)) := by
    rw [← List.map_append]
    exact (sortByDateDesc_perm env.dateVal _ _).map _
  have hdisj : List.Disjoint ((rssPostsOf env).map (fun p => p.link))
      ((olderPostsOf env).map (fun p => p.link)) := by
    intro u hu hu2
    exact holdNotRss u hu2 hu
  have hpostsN : ((getPosts env).map (fun p => p.link)).Nodup := by
    rw [hpermP.nodup_iff]
    exact List.nodup_append.mpr ⟨hrssN, holdN, hdisj⟩
  have hstN : (STATIC_PODCASTS.map (fun e => e.link)).Nodup := by decide
  have heq := addStatics_eq (rssEpisodesOf env) STATIC_PODCASTS hstN
  have hrssEN : ((rssEpisodesOf env).map (fun e => e.link)).Nodup := by
    rw [rssEpisodes_links]
    exact hfeed.sublist ((List.filter_sublist _).map _)
  have hfiltN : ((STATIC_PODCASTS.filter
      (fun s => !(rssEpisodesOf env).any (fun e => e.link == s.link))).map
        (fun e => e.link)).Nodup :=
    hstN.sublist ((List.filter_sublist _).map _)
  have hdisj2 : List.Disjoint ((rssEpisodesOf env).map (fun e => e.link))
      ((STATIC_PODCASTS.filter
        (fun s => !(rssEpisodesOf env).any (fun e => e.link == s.link))).map
          (fun e => e.link)) := by
    intro u hu hu2
    rw [List.mem_map] at hu2
    obtain ⟨x, hx, hxl⟩ := hu2
    rw [List.mem_filter] at hx
    obtain ⟨-, hcond⟩ := hx
    rw [Bool.not_eq_true'] at hcond
    rw [List.any_eq_false] at hcond
    rw [List.mem_map] at hu
    obtain ⟨e, he, hel⟩ := hu
    apply hcond e he
    rw [beq_iff_eq, hel, hxl]
  have hpermE : ((getPodcasts env).map (fun e => e.link)).Perm
      ((rssEpisodesOf env).map (fun e => e.link) ++
        (STATIC_PODCASTS.filter
          (fun s => !(rssEpisodesOf env).any (fun e => e.link == s.link))).map
            (fun e => e.link)) := by
    rw [← List.map_append, ← heq]
    exact (sortByDateDesc_perm env.dateVal _ _).map _
  have hpodsN : ((getPodcasts env).map (fun e => e.link)).Nodup := by
    rw [hpermE.nodup_iff]
    exact List.nodup_append.mpr ⟨hrssEN, hfiltN, hdisj2⟩
  refine ⟨hpostsN, hpodsN, ?_, ?_⟩
  · intro u hu
    rw [perm_count_eq hpermP, List.count_append, nodup_count_eq_one hrssN hu,
      List.count_eq_zero.mpr (fun hmem => holdNotRss u hmem hu)]
  · intro u hu
    rw [perm_count_eq hpermE, List.count_append, nodup_count_eq_one hrssEN hu,
      List.count_eq_zero.mpr (fun hmem => hdisj2 hu hmem)]

/-- C2 witness: the amended theorem on a run with one feed entry and one
fresh sitemap URL. -/
theorem c2_witness :
    ((getPosts c2goodEnv).map (fun p => p.link)).Nodup ∧
    ((getPosts c2goodEnv).map (fun p => p.link)).count "https://x/L".data = 1 :=
  ⟨(c2_links_nodup c2goodEnv (by decide) (by decide)).1,
   (c2_links_nodup c2goodEnv (by decide) (by decide)).2.2.1 "https://x/L".data (by decide)⟩

/-- C3: both aggregated lists are sorted by publication date descending —
every adjacent pair (a, b) satisfies `dateVal a.pubDate ≥ dateVal b.pubDate`,
where `dateVal` models `new Date(·).getTime()`. -/
theorem c3_sorted_by_date_desc (env : Env) :
    List.Chain' (fun a b => env.dateVal b.pubDate ≤ env.dateVal a.pubDate)
      (getPosts env) ∧
    List.Chain' (fun a b => env.dateVal b.pubDate ≤ env.dateVal a.pubDate)
      (getPodcasts env) :=
  ⟨(sortByDateDesc_sorted env.dateVal _ _).chain',
   (sortByDateDesc_sorted env.dateVal _ _).chain'⟩

/-- C4 counterexample: a single 8-letter word with maxLength 5 is
truncated, and the output `aaaaa...` ends in the middle of the word (the
`\s+\S*$` trim finds no whitespace to back up to). -/
theorem c4_counterexample :
    5 < (cleanedText c4word).length ∧
    cleanExcerpt (some c4word) 5 = List.replicate 5 'a' ++ "...".data ∧
    endsMidWord (cleanedText c4word) (List.replicate 5 'a') = true :=
  ⟨by decide, by decide, by decide⟩

/-- C4 (amended): the output length is always ≤ maxLength + 3 (the ellipsis
length); and when truncation occurs AND the truncated prefix contains any
whitespace, the output is the prefix stripped back to the last word
boundary plus the ellipsis, and does not end mid-word.  (A single word
longer than maxLength is cut mid-word, as the counterexample shows.) -/
theorem c4_excerpt_truncation (sn : Option Str) (ml : Nat) :
    (cleanExcerpt sn ml).length ≤ ml + 3 ∧
    ∀ s, sn = some s → ml < (cleanedText s).length →
      (∃ c ∈ (cleanedText s).take ml, wsp c = true) →
      cleanExcerpt sn ml = stripLastWord ((cleanedText s).take ml) ++ "...".data ∧
      endsMidWord (cleanedText s) (stripLastWord ((cleanedText s).take ml)) = false := by
  constructor
  · rw [cleanExcerpt.eq_def]
    cases sn with
    | none => simp
    | some s =>
      by_cases he : s.isEmpty
      · simp [he]
      · simp only [he, Bool.false_eq_true, if_false]
        by_cases hle : (cleanedText s).length ≤ ml
        · simp only [hle, if_true]
          omega
        · simp only [hle, if_false]
          rw [List.length_append]
          have h1 := stripLastWord_length_le ((cleanedText s).take ml)
          have h2 : ((cleanedText s).take ml).length ≤ ml := List.length_take_le _ _
          simp only [List.length_cons, List.length_nil]
          omega
  · intro s hs hml hws
    subst hs
    have he : s.isEmpty = false := by
      cases s with
      | nil =>
        have h0 : cleanedText ([] : Str) = [] := rfl
        rw [h0] at hml
        simp at hml
      | cons a t => rfl
    have hnotle : ¬ (cleanedText s).length ≤ ml := by omega
    have hout : cleanExcerpt (some s) ml =
        stripLastWord ((cleanedText s).take ml) ++ "...".data := by
      rw [cleanExcerpt.eq_def]
      simp [he, hnotle]
    refine ⟨hout, ?_⟩
    generalize hcleq : cleanedText s = cleaned at hml hws ⊢
    obtain ⟨c, t, hsplit, hc⟩ := stripLastWord_split (cleaned.take ml) hws
    generalize hstemeq : stripLastWord (cleaned.take ml) = stem at hsplit ⊢
    have hcl : cleaned = stem ++ (c :: (t ++ cleaned.drop ml)) := by
      conv_lhs => rw [← List.take_append_drop ml cleaned]
      conv_lhs => rw [hsplit]
      simp [List.append_assoc]
    have hdrop : cleaned.drop stem.length = c :: (t ++ cleaned.drop ml) := by
      conv_lhs => rw [hcl]
      exact List.drop_left _ _
    rw [endsMidWord, hdrop]
    simp [hc]

/-- C4 witness: the amended theorem at the scenario input taken from the spec
(maxLength 10), whose truncated prefix contains whitespace. -/
theorem c4_witness :
    10 < (cleanedText "Hello   world this is long text".data).length ∧
    (∃ c ∈ (cleanedText "Hello   world this is long text".data).take 10, wsp c = true) ∧
    cleanExcerpt (some "Hello   world this is long text".data) 10 =
      stripLastWord ((cleanedText "Hello   world this is long text".data).take 10) ++
        "...".data ∧
    endsMidWord (cleanedText "Hello   world this is long text".data)
      (stripLastWord ((cleanedText "Hello   world this is long text".data).take 10)) =
      false := by
  have h := (c4_excerpt_truncation (some "Hello   world this is long text".data) 10).2
    "Hello   world this is long text".data rfl (by decide) (by decide)
  exact ⟨by decide, by decide, h.1, h.2⟩

/-- C5: a static episode whose link is absent from the feed-derived
episodes occurs exactly once in `getPodcasts`; when its link is already
present among feed-derived episodes, every output entry with that link is a
feed entry (the static one is not added). -/
theorem c5_static_gap_fill (env : Env) (s : PodcastEpisode) (hmem : s ∈ STATIC_PODCASTS) :
    ((∀ e ∈ rssEpisodesOf env, e.link ≠ s.link) → (getPodcasts env).count s = 1) ∧
    ((∃ e ∈ rssEpisodesOf env, e.link = s.link) →
      ∀ x ∈ getPodcasts env, x.link = s.link → x ∈ rssEpisodesOf env) := by
  have hstN : (STATIC_PODCASTS.map (fun e => e.link)).Nodup := by decide
  have heq := addStatics_eq (rssEpisodesOf env) STATIC_PODCASTS hstN
  have hperm : (getPodcasts env).Perm (addStatics (rssEpisodesOf env) STATIC_PODCASTS) :=
    sortByDateDesc_perm env.dateVal _ _
  constructor
  · intro habs
    rw [perm_count_eq hperm, heq, List.count_append]
    have hz : (rssEpisodesOf env).count s = 0 := by
      rw [List.count_eq_zero]
      intro hmem'
      exact habs s hmem' rfl
    have hps : (!(rssEpisodesOf env).any (fun e => e.link == s.link)) = true := by
      have hany : (rssEpisodesOf env).any (fun e => e.link == s.link) = false := by
        rw [List.any_eq_false]
        intro e he heq2
        exact habs e he (by rwa [beq_iff_eq] at heq2)
      rw [hany]
      rfl
    have hcf : List.count s
        (List.filter (fun s2 => !(rssEpisodesOf env).any fun e => e.link == s2.link)
          STATIC_PODCASTS) = List.count s STATIC_PODCASTS :=
      List.count_filter hps
    rw [hz, hcf, nodup_count_eq_one (hstN.of_map _) hmem]
  · rintro ⟨e, he, helink⟩ x hx hxlink
    have hxmem : x ∈ addStatics (rssEpisodesOf env) STATIC_PODCASTS :=
      hperm.subset hx
    rw [heq] at hxmem
    rcases List.mem_append.mp hxmem with h | h
    · exact h
    · exfalso
      rw [List.mem_filter] at h
      obtain ⟨hxst, hxcond⟩ := h
      have hxe : x = s := List.inj_on_of_nodup_map hstN hxst hmem hxlink
      subst hxe
      rw [Bool.not_eq_true', List.any_eq_false] at hxcond
      exact hxcond e he (by rw [beq_iff_eq, helink, hxlink])

/-- C5 witness: the theorem at the first static episode on a run with no
feed episodes. -/
theorem c5_witness : (getPodcasts c5env).count c5ep = 1 :=
  (c5_static_gap_fill c5env c5ep (by decide)).1 (by decide)

/-- C6 counterexample: the primary feed fetch throws, yet `getPosts` is not
empty — the sitemap crawl still contributes posts. -/
theorem c6_counterexample :
    c6env.feedResult = .error () ∧ getPosts c6env ≠ [] :=
  ⟨rfl, by decide⟩

/-- C6 (amended): when the primary feed fetch fails AND the sitemap fetch
also fails, `getPosts` returns `[]`; `getPosts` is a total function of its
oracles, so no exception propagates in any case. -/
theorem c6_empty_when_all_fetches_fail (pages : Str → Except Unit Str) (now : Str)
    (dateVal : Str → Int) :
    getPosts { feedResult := .error (), sitemapResult := .error (),
               pages := pages, now := now, dateVal := dateVal } = [] := by
  simp [getPosts, rssPostsOf, olderPostsOf, olderUrlsOf, fetchSubstackFeed,
    fetchSitemapUrls, sortByDateDesc, List.insertionSort]

/-- C7 counterexample: `c7item` has an attachment whose media type starts
with `image/`, but `getImageForPost` returns the content-scraped URL, not
the attachment URL (which is empty). -/
theorem c7_counterexample :
    c7item.enclosure? = some { url := [], type := "image/png".data } ∧
    startsWithStr "image/".data "image/png".data = true ∧
    getImageForPost c7item = some "https://x/a.png".data ∧
    "https://x/a.png".data ≠ ([] : Str) :=
  ⟨rfl, by decide, by decide, by decide⟩

/-- C7 (amended): the resolver returns the attachment URL when the media
type starts with `image/` AND the attachment URL is non-empty; otherwise it
returns the first captured `<img>` URL (document order) that is non-empty
and contains neither `_48x` nor `_24x`, and nothing when the entry has no
(non-empty) content or no qualifying image. -/
theorem c7_image_resolver (item : CustomItem) :
    (hasImageEnclosure item = true → enclosureUrlOf item ≠ [] →
      getImageForPost item = some (enclosureUrlOf item)) ∧
    (hasImageEnclosure item = false ∨ enclosureUrlOf item = [] →
      getImageForPost item =
        match item.content? with
        | some c => if c ≠ [] then (imgCaptures c).find? goodImgUrl else none
        | none => none) := by
  constructor
  · intro h1 h2
    have h2' : (enclosureUrlOf item).isEmpty = false := by
      cases hu : enclosureUrlOf item with
      | nil => exact absurd hu h2
      | cons a t => rfl
    simp [getImageForPost, h1, h2']
  · intro h
    have hcond : (hasImageEnclosure item && !(enclosureUrlOf item).isEmpty) = false := by
      rcases h with h | h
      · simp [h]
      · simp [h]
    rw [getImageForPost, hcond]
    simp only [Bool.false_eq_true, if_false]
    cases hc : item.content? with
    | none => rfl
    | some c =>
      by_cases hce : c = []
      · subst hce; simp
      · have : c.isEmpty = false := by
          cases c with
          | nil => exact absurd rfl hce
          | cons a t => rfl
        simp [this, hce, extractImageFromContent, firstGoodImg_eq_find]

/-- C7 witness: the amended theorem at an item whose image enclosure has a
non-empty URL. -/
theorem c7_witness : getImageForPost c7okItem = some "https://x/thumb.png".data :=
  (c7_image_resolver c7okItem).1 (by decide) (by decide)

/-- C8: an archive page whose HTML matches none of the recognized title,
date, description or image patterns produces the entry
`title = "Untitled"`, empty excerpt, `pubDate = now` (the synthetic current
processing time) and no image. -/
theorem c8_malformed_html_defaults (pages : Str → Except Unit Str) (now url html : Str)
    (hp : pages url = .ok html)
    (h1 : ogTitleCap html = none) (h2 : titleTagCap html = none)
    (h3 : pubTimeCap html = none) (h4 : datePubCap html = none)
    (h5 : ogDescCap html = none) (h6 : nameDescCap html = none)
    (h7 : ogImageCap html = none) :
    fetchPostMetadata pages now url =
      some { title := "Untitled".data, link := url, pubDate := now,
             excerpt := [], content := [], image := none } := by
  simp [fetchPostMetadata, hp, h1, h2, h3, h4, h5, h6, h7, Option.orElse]

/-- C8 witness: the theorem at a page of plain text. -/
theorem c8_witness :
    fetchPostMetadata (fun _ => .ok "plain".data) "NOW".data "https://u".data =
      some { title := "Untitled".data, link := "https://u".data, pubDate := "NOW".data,
             excerpt := [], content := [], image := none } :=
  c8_malformed_html_defaults (fun _ => .ok "plain".data) "NOW".data "https://u".data
    "plain".data rfl (by decide) (by decide) (by decide) (by decide) (by decide)
    (by decide) (by decide)

/-- C9: `getLatestPosts count` is exactly the length-at-most-`count` prefix
of `getPosts` under the same oracles, and likewise for podcasts. -/
theorem c9_latest_are_prefixes (env : Env) (count : Nat) :
    getLatestPosts env count = (getPosts env).take count ∧
    (getLatestPosts env count).length ≤ count ∧
    getLatestPodcasts env count = (getPodcasts env).take count ∧
    (getLatestPodcasts env count).length ≤ count :=
  ⟨rfl, List.length_take_le count (getPosts env),
   rfl, List.length_take_le count (getPodcasts env)⟩

/-- C10: every featured book has a truthy (non-empty) `dateRead` and a
review whose trimmed text has length ≥ 20 and is not `no notes` /
`no notes.` case-insensitively; the result is at most `count` long and is a
sublist (order-preserving selection) of the book list. -/
theorem c10_featured_books (books : List Book) (count : Nat) :
    (getFeaturedBooks books count).Sublist books ∧
    (getFeaturedBooks books count).length ≤ count ∧
    ∀ b ∈ getFeaturedBooks books count,
      (∃ s, b.dateRead = some s ∧ s ≠ []) ∧
      ∃ r, b.review = some r ∧ 20 ≤ (trimStr r).length ∧
        asciiLowerStr (trimStr r) ≠ "no notes".data ∧
        asciiLowerStr (trimStr r) ≠ "no notes.".data := by
  refine ⟨((List.take_sublist _ _).trans (List.filter_sublist _)), List.length_take_le _ _, ?_⟩
  intro b hb
  have hb' := List.mem_of_mem_take hb
  rw [List.mem_filter] at hb'
  obtain ⟨-, hcond⟩ := hb'
  rw [Bool.and_eq_true] at hcond
  obtain ⟨hdate, hrev⟩ := hcond
  constructor
  · cases hd : b.dateRead with
    | none => rw [dateReadTruthy.eq_def, hd] at hdate; simp at hdate
    | some s =>
      cases s with
      | nil => rw [dateReadTruthy.eq_def, hd] at hdate; simp at hdate
      | cons c t => exact ⟨c :: t, rfl, by simp⟩
  · cases hr : b.review with
    | none => rw [hasSubstantialReview.eq_def, hr] at hrev; simp at hrev
    | some r =>
      rw [hasSubstantialReview.eq_def, hr] at hrev
      simp only [] at hrev
      by_cases he : r.isEmpty
      · simp [he] at hrev
      · by_cases hl : (asciiLowerStr (trimStr r)).length < 20
        · simp [he, hl] at hrev
        · by_cases hq : (asciiLowerStr (trimStr r) == "no notes".data ||
              asciiLowerStr (trimStr r) == "no notes.".data) = true
          · simp [he, hl, hq] at hrev
          · simp only [Bool.or_eq_true, beq_iff_eq, not_or] at hq
            refine ⟨r, rfl, ?_, hq.1, hq.2⟩
            rw [asciiLowerStr, List.length_map] at hl
            omega

/-- C10 witness: the theorem at a one-book list whose single book is
featured. -/
theorem c10_witness :
    (∃ s, c10book.dateRead = some s ∧ s ≠ []) ∧
    ∃ r, c10book.review = some r ∧ 20 ≤ (trimStr r).length ∧
      asciiLowerStr (trimStr r) ≠ "no notes".data ∧
      asciiLowerStr (trimStr r) ≠ "no notes.".data :=
  (c10_featured_books [c10book] 6).2.2 c10book (by decide)

end KB
